import Mathlib

/-!
# Verification of the Smart Apply pipeline (mistral-vscode)

A shallow embedding of the Smart Apply services of this repository:

* `SymbolResolver.ts`    — anchor resolution chain (exact symbol → fuzzy symbol
  → text search → cursor fallback), the import-section locator, Levenshtein
  distance, and the declaration-pattern text search;
* `IntentDetector.ts`    — the three-stage intent classifier;
* `SmartApplyService.ts` — the apply orchestrator's routing and batch loop,
  and `cleanCodeForFile`;
* `DiffPreviewService.ts` — the pending-change store with accept/reject and
  the content-splicing function `generateProposedContent`.

Document text is modelled as `List Char` (a JavaScript string); whitespace and
word-character classes follow the JavaScript regex classes `\s` and `\w`
restricted to ASCII, which is all the source's patterns rely on.  Confidence
scores are exact rationals.  Regex tests from the source are translated into
explicit executable matchers; each matcher's doc comment names the regex it
embeds.  Collaborator calls (symbol index, document store, editor edits,
UI prompts) are modelled as explicit parameters or state.
-/

namespace MistralApply

/-- ASCII approximation of the JavaScript regex class `\s`
(space, tab, newline, carriage return, vertical tab, form feed). -/
def wsChar (c : Char) : Bool :=
  c = ' ' || c = '\t' || c = '\n' || c = '\r' || c = '\x0b' || c = '\x0c'

/-- The JavaScript regex class `\w`: letters, digits and underscore. -/
def wordChar (c : Char) : Bool :=
  ('a' ≤ c && c ≤ 'z') || ('A' ≤ c && c ≤ 'Z') || ('0' ≤ c && c ≤ '9') || c = '_'

/-- JS `String.prototype.toLowerCase` (ASCII). -/
def lower (s : List Char) : List Char := s.map Char.toLower

/-- If `p` is a leading segment of `l`, return the remainder (else `none`). -/
def stripPre : List Char → List Char → Option (List Char)
  | [], l => some l
  | _ :: _, [] => none
  | p :: ps, c :: cs => if p = c then stripPre ps cs else none

/-- If `p` is a trailing segment of `l`, return the part of `l` before it. -/
def stripSuf (p l : List Char) : Option (List Char) :=
  match stripPre p.reverse l.reverse with
  | some r => some r.reverse
  | none => none

/-- JS `String.prototype.includes`: `needle` occurs contiguously in `hay`. -/
def strIncludes (hay needle : List Char) : Bool :=
  (stripPre needle hay).isSome ||
    (match hay with
     | [] => false
     | _ :: t => strIncludes t needle)

/-- JS `String.prototype.indexOf` (first index of a contiguous occurrence). -/
def idxOfSub (hay needle : List Char) : Option Nat :=
  if (stripPre needle hay).isSome then some 0
  else
    match hay with
    | [] => none
    | _ :: t =>
      match idxOfSub t needle with
      | some i => some (i + 1)
      | none => none

/-- Drops leading JavaScript whitespace (JS `String.prototype.trimStart`). -/
def trimL (s : List Char) : List Char := s.dropWhile wsChar

/-- Drops trailing JavaScript whitespace (JS `String.prototype.trimEnd`). -/
def trimR (s : List Char) : List Char := (s.reverse.dropWhile wsChar).reverse

/-- JS `String.prototype.trim`. -/
def trimBoth (s : List Char) : List Char := trimR (trimL s)

/-- JS `text.split("\n")`: always returns at least one (possibly empty) line;
the lines contain no newline characters. -/
def splitLines (s : List Char) : List (List Char) :=
  match s with
  | [] => [[]]
  | c :: cs =>
    if c = '\n' then [] :: splitLines cs
    else
      match splitLines cs with
      | [] => [[c]]
      | l :: ls => (c :: l) :: ls

/-- JS `lines.join("\n")`. -/
def joinLines : List (List Char) → List Char
  | [] => []
  | [l] => l
  | l :: ls => l ++ '\n' :: joinLines ls

theorem splitLines_ne_nil (s : List Char) : splitLines s ≠ [] := by
  match s with
  | [] => simp [splitLines]
  | c :: cs =>
    simp only [splitLines]
    split
    · simp
    · split <;> simp

/-- Splitting on newlines and rejoining with newlines is the identity. -/
theorem joinLines_splitLines (s : List Char) : joinLines (splitLines s) = s := by
  induction s with
  | nil => rfl
  | cons c cs ih =>
    simp only [splitLines]
    by_cases hc : c = '\n'
    · subst hc
      simp only [if_pos rfl]
      rcases hs : splitLines cs with _ | ⟨l, ls⟩
      · exact absurd hs (splitLines_ne_nil cs)
      · rw [hs] at ih
        cases ls with
        | nil => simp [joinLines] at ih ⊢; exact ih
        | cons m ms => simp [joinLines] at ih ⊢; exact ih
    · rw [if_neg hc]
      rcases hs : splitLines cs with _ | ⟨l, ls⟩
      · exact absurd hs (splitLines_ne_nil cs)
      · rw [hs] at ih
        cases ls with
        | nil => simpa [joinLines] using congrArg (c :: ·) ih
        | cons m ms => simpa [joinLines] using congrArg (c :: ·) ih

/-! ## SymbolResolver (src/services/SymbolResolver.ts) -/

/-- A `vscode.Position` (zero-based line and character). -/
structure Pos where
  line : Nat
  character : Nat
deriving DecidableEq, Repr

/-- A `vscode.Range`; the source's `range.end` is named `stop` here because
`end` is a Lean keyword. -/
structure SymRange where
  start : Pos
  stop : Pos
deriving DecidableEq, Repr

mutual
/-- A `vscode.DocumentSymbol` (name, range, nested children), as a mutual
inductive with symbol lists so that the tree search below is structurally
recursive. -/
inductive DocSymbol where
  | mk (name : List Char) (range : SymRange) (children : DocSymbolList)

/-- A list of document symbols (the symbol provider's array). -/
inductive DocSymbolList where
  | nil
  | cons (head : DocSymbol) (tail : DocSymbolList)
end

def DocSymbol.name : DocSymbol → List Char
  | .mk n _ _ => n

def DocSymbol.range : DocSymbol → SymRange
  | .mk _ r _ => r

def DocSymbol.children : DocSymbol → DocSymbolList
  | .mk _ _ c => c

/-- Length of a symbol list (for the source's `symbols.length > 0` guard). -/
def DocSymbolList.length : DocSymbolList → Nat
  | .nil => 0
  | .cons _ tail => tail.length + 1

/-- One row-extension step of the Levenshtein matrix of
`SymbolResolver.levenshteinDistance`: walking the characters of `a`,
`pPrev`/`pCur` are `matrix[i-1][j-1]` / `matrix[i-1][j]` and `left` is
`matrix[i][j-1]`. -/
def levNextRowAux : List Char → Char → List Nat → Nat → List Nat
  | ac :: as, bc, pPrev :: pCur :: pRest, left =>
    let cur := if bc = ac then pPrev
               else Nat.min (pPrev + 1) (Nat.min (left + 1) (pCur + 1))
    cur :: levNextRowAux as bc (pCur :: pRest) cur
  | _, _, _, _ => []

/-- Row `i` of the Levenshtein matrix (first entry `matrix[i][0] = i`). -/
def levRow (a : List Char) (bc : Char) (prev : List Nat) (i : Nat) : List Nat :=
  i :: levNextRowAux a bc prev i

/-- Folds `levRow` over the characters of `b` starting from row `i`. -/
def levRows (a : List Char) : List Char → List Nat → Nat → List Nat
  | [], prev, _ => prev
  | bc :: bs, prev, i => levRows a bs (levRow a bc prev (i + 1)) (i + 1)

/-- The dynamic-programming Levenshtein distance of
`SymbolResolver.levenshteinDistance` (`matrix[b.length][a.length]`). -/
def levenshteinDistance (a b : List Char) : Nat :=
  if a.length = 0 then b.length
  else if b.length = 0 then a.length
  else (levRows a b (List.range (a.length + 1)) 0).getD a.length 0

/-- Exact or fuzzy symbol matching, from `SymbolResolver.findSymbol`. -/
inductive MatchMode where
  | exactMode
  | fuzzyMode

/-- Depth-first search of the symbol tree, from `SymbolResolver.findSymbol`:
case-insensitive equality in exact mode; containment either way or Levenshtein
distance at most 3 in fuzzy mode; children are searched before later siblings. -/
def findSymbol (symbols : DocSymbolList) (name : List Char) (mode : MatchMode) :
    Option DocSymbol :=
  match symbols with
  | .nil => none
  | .cons (.mk nm rng children) rest =>
    let normalizedName := lower name
    let symbolName := lower nm
    let isMatch : Bool :=
      match mode with
      | .exactMode => symbolName == normalizedName
      | .fuzzyMode =>
        strIncludes symbolName normalizedName ||
        strIncludes normalizedName symbolName ||
        decide (levenshteinDistance symbolName normalizedName ≤ 3)
    if isMatch then some (.mk nm rng children)
    else
      match findSymbol children name mode with
      | some m => some m
      | none => findSymbol rest name mode

/-- Matcher for the regex `^const\s+\w+\s*=\s*require\(` used by
`SymbolResolver.findImportSection`. -/
def constRequireTest (line : List Char) : Bool :=
  match stripPre ("const".toList) line with
  | some (c :: r) =>
    if wsChar c then
      let r1 := r.dropWhile wsChar
      let w := r1.takeWhile wordChar
      let r2 := r1.dropWhile wordChar
      if w.isEmpty then false
      else
        match r2.dropWhile wsChar with
        | '=' :: r3 => (stripPre ("require(".toList) (r3.dropWhile wsChar)).isSome
        | _ => false
    else false
  | _ => false

/-- Import-statement test of `SymbolResolver.findImportSection`
(startsWith checks and the `const ... = require(` regex). -/
def importLineTest (line : List Char) : Bool :=
  (stripPre ("import ".toList) line).isSome ||
  (stripPre ("from ".toList) line).isSome ||
  constRequireTest line ||
  (stripPre ("use ".toList) line).isSome ||
  (stripPre ("using ".toList) line).isSome

/-- Scanning loop of `SymbolResolver.findImportSection`, tracking the index of
the last contiguous import line (`lastImportLine`); the third branch is the
source's `break`. -/
def importScan : List (List Char) → Nat → Option Nat → Option Nat
  | [], _, acc => acc
  | l :: rest, i, acc =>
    let line := trimBoth l
    if i < 10 && (line.isEmpty || (stripPre ("//".toList) line).isSome ||
        (stripPre ("#".toList) line).isSome || (stripPre ("/*".toList) line).isSome ||
        (stripPre ("*".toList) line).isSome) then
      importScan rest (i + 1) acc
    else if importLineTest line then
      importScan rest (i + 1) (some i)
    else if acc.isSome && !line.isEmpty then acc
    else importScan rest (i + 1) acc

/-- Fallback scan of `SymbolResolver.findImportSection`: the first of the first
five lines that is non-blank and not a shebang or comment start. -/
def firstContentLine : List (List Char) → Nat → Option Nat
  | [], _ => none
  | l :: rest, i =>
    if i ≥ 5 then none
    else
      let line := trimBoth l
      if !line.isEmpty && !(stripPre ("#!".toList) line).isSome &&
          !(stripPre ("//".toList) line).isSome && !(stripPre ("/*".toList) line).isSome then
        some i
      else firstContentLine rest (i + 1)

/-- Embeds `SymbolResolver.findImportSection`.  The source's TypeScript type
admits `undefined`, but every return statement produces a position; the final
fallback is position `(0,0)`. -/
def findImportSection (text : List Char) : Option Pos :=
  let lines := splitLines text
  match importScan lines 0 none with
  | some lastImportLine => some ⟨lastImportLine + 1, 0⟩
  | none =>
    match firstContentLine lines 0 with
    | some i => some ⟨i, 0⟩
    | none => some ⟨0, 0⟩

/-- Offset-to-position conversion (`document.positionAt`). -/
def positionAtAux : List Char → Nat → Nat → Nat → Pos
  | [], _, line, col => ⟨line, col⟩
  | _ :: _, 0, line, col => ⟨line, col⟩
  | c :: r, k + 1, line, col =>
    if c = '\n' then positionAtAux r k (line + 1) 0
    else positionAtAux r k line (col + 1)

/-- Offset-to-position conversion (`document.positionAt`). -/
def positionAt (text : List Char) (off : Nat) : Pos :=
  positionAtAux text off 0 0

/-- Matcher combinator for regex `\s*` followed by whatever `p` accepts
(tries every number of consumed whitespace characters, as backtracking does). -/
def wsStarThen (p : List Char → Bool) : List Char → Bool
  | [] => p []
  | c :: r => p (c :: r) || (wsChar c && wsStarThen p r)

/-- Matcher for the literal `nm` followed by `\s*` and the character `tail`
(the suffix of the declaration-pattern regexes after their keyword). -/
def nameWsTail (nm : List Char) (tail : Char) (t : List Char) : Bool :=
  match stripPre nm t with
  | some u =>
    wsStarThen (fun v => match v with
      | d :: _ => d = tail
      | [] => false) u
  | none => false

/-- Matcher for regexes of shape `kw\s+NAME\s*TAIL` (e.g. `function\s+x\s*\(`,
`const\s+x\s*=`); `NAME` is the anchor made literal by `escapeRegex`. -/
def kwNameTail (kw nm : List Char) (tail : Char) (s : List Char) : Bool :=
  match stripPre kw s with
  | some (c :: r) => wsChar c && wsStarThen (nameWsTail nm tail) r
  | _ => false

/-- Matcher for the regex `class\s+NAME` (no trailing requirement). -/
def kwNameBare (kw nm : List Char) (s : List Char) : Bool :=
  match stripPre kw s with
  | some (c :: r) => wsChar c && wsStarThen (fun t => (stripPre nm t).isSome) r
  | _ => false

/-- First index (if any) at which the suffix of the list satisfies `p`
(the index a regex `match` would report). -/
def firstIdxWhere (p : List Char → Bool) : List Char → Option Nat
  | [] => if p [] then some 0 else none
  | c :: r =>
    if p (c :: r) then some 0
    else
      match firstIdxWhere p r with
      | some i => some (i + 1)
      | none => none

/-- Declaration-pattern search of `SymbolResolver.findTextMatch`: the six
case-insensitive regexes (`function`/`def`/`const|let|var`/`class`/`fn`/`func`
forms) tried in source order, each with the anchor as a literal (the source
escapes it with `escapeRegex`); returns the match index of the first regex
that matches anywhere. -/
def declPatternIdx (text anchor : List Char) : Option Nat :=
  let lowT := lower text
  let nm := lower anchor
  let pats : List (List Char → Bool) :=
    [ kwNameTail ("function".toList) nm '(',
      kwNameTail ("def".toList) nm '(',
      fun s => kwNameTail ("const".toList) nm '=' s ||
               kwNameTail ("let".toList) nm '=' s ||
               kwNameTail ("var".toList) nm '=' s,
      kwNameBare ("class".toList) nm,
      kwNameTail ("fn".toList) nm '(',
      kwNameTail ("func".toList) nm '(' ]
  pats.foldl
    (fun acc p =>
      match acc with
      | some i => some i
      | none => firstIdxWhere p lowT) none

/-- Embeds `SymbolResolver.findTextMatch`: case-insensitive substring search
first, then the declaration-pattern regexes. -/
def findTextMatch (text searchText : List Char) : Option Pos :=
  match idxOfSub (lower text) (lower searchText) with
  | some i => some (positionAt text i)
  | none =>
    match declPatternIdx text searchText with
    | some i => some (positionAt text i)
    | none => none

/-- Resolution method tags of `ResolvedPosition.method`. -/
inductive ResolutionMethod where
  | exact_symbol
  | fuzzy_symbol
  | text_search
  | cursor_fallback
deriving DecidableEq, Repr

/-- Result record of `SymbolResolver.resolveAnchor`. -/
structure ResolvedPosition where
  position : Pos
  range : Option SymRange := none
  method : ResolutionMethod
  symbolName : Option (List Char) := none
deriving DecidableEq, Repr

/-- Symbol-stage and text-stage part of `SymbolResolver.resolveAnchor`
(everything after the `imports` special case).  The symbol index is a
parameter: `none` models a failing provider (the source catches and returns
`undefined`), and an empty list is skipped by the `symbols.length > 0` guard. -/
def resolveSymbolsAndText (symbolsOpt : Option DocSymbolList) (text : List Char)
    (anchor : List Char) (cursorPosition : Pos) : ResolvedPosition :=
  let symbolStage : Option ResolvedPosition :=
    match symbolsOpt with
    | some symbols =>
      if symbols.length > 0 then
        match findSymbol symbols anchor .exactMode with
        | some s => some ⟨s.range.start, some s.range, .exact_symbol, some s.name⟩
        | none =>
          match findSymbol symbols anchor .fuzzyMode with
          | some s => some ⟨s.range.start, some s.range, .fuzzy_symbol, some s.name⟩
          | none => none
      else none
    | none => none
  match symbolStage with
  | some r => r
  | none =>
    match findTextMatch text anchor with
    | some p => ⟨p, none, .text_search, none⟩
    | none => ⟨cursorPosition, none, .cursor_fallback, none⟩

/-- Embeds `SymbolResolver.resolveAnchor`: no anchor → cursor fallback;
anchor `imports` (case-insensitive) → import-section locator (falling through
to the chain if it produced nothing, mirroring the source's truthiness check);
otherwise exact symbol → fuzzy symbol → text search → cursor fallback. -/
def resolveAnchor (symbolsOpt : Option DocSymbolList) (text : List Char)
    (anchor : Option (List Char)) (cursorPosition : Pos) : ResolvedPosition :=
  match anchor with
  | none => ⟨cursorPosition, none, .cursor_fallback, none⟩
  | some a =>
    if lower a = ("imports".toList) then
      match findImportSection text with
      | some p => ⟨p, none, .text_search, none⟩
      | none => resolveSymbolsAndText symbolsOpt text a cursorPosition
    else resolveSymbolsAndText symbolsOpt text a cursorPosition

/-! ## File-header patterns (shared by IntentDetector.detectFileCreation and
SmartApplyService.cleanCodeForFile; the regex texts are identical in both). -/

/-- Double-quote character, written via its code point so that no bare quote
appears inside a character literal. -/
def dq : Char := Char.ofNat 34

/-- Single-quote character, via its code point. -/
def sq : Char := Char.ofNat 39

/-- Searches a (whitespace-free) body for a `\.\w+` suffix: some position
holds a dot followed by a nonempty run of word characters reaching the end
(regex backtracking over the choices of the dot). -/
def dotWordSuffix : List Char → Bool
  | [] => false
  | c :: rest => (c == '.' && !rest.isEmpty && rest.all wordChar) || dotWordSuffix rest

/-- Full-match test for `[^\s]+\.\w+`: nonempty, no whitespace, and a dot at
index at least 1 whose suffix is a nonempty run of word characters. -/
def fileTok (body : List Char) : Bool :=
  match body with
  | [] => false
  | _ :: rest => body.all (fun c => !wsChar c) && dotWordSuffix rest

/-- Matcher/extractor for the header-line regexes of shape
`^OPEN\s*([^\s]+\.\w+)\s*CLOSE\s*$` (with `CLOSE` possibly empty): returns the
captured path token when the line matches. -/
def headerTok (openM closeM : List Char) (l : List Char) : Option (List Char) :=
  match stripPre openM l with
  | none => none
  | some r =>
    let mid := r.dropWhile wsChar
    let m1 := trimR mid
    match stripSuf closeM m1 with
    | none => none
    | some m2 =>
      let body := trimR m2
      if fileTok body then some body else none

/-- Regex `^\/\/\s*([^\s]+\.\w+)\s*$` (pattern shared by both source files). -/
def slashHeaderTok (l : List Char) : Option (List Char) :=
  headerTok ("//".toList) [] l

/-- Regex `^#\s*([^\s]+\.\w+)\s*$`. -/
def hashHeaderTok (l : List Char) : Option (List Char) :=
  headerTok ("#".toList) [] l

/-- Regex `^\/\*\s*([^\s]+\.\w+)\s*\*\/\s*$`. -/
def blockHeaderTok (l : List Char) : Option (List Char) :=
  headerTok ("/*".toList) ("*/".toList) l

/-- Regex `^<!--\s*([^\s]+\.\w+)\s*-->\s*$`. -/
def htmlHeaderTok (l : List Char) : Option (List Char) :=
  headerTok ("<!--".toList) ("-->".toList) l

/-- Regex `^"""\s*([^\s]+\.\w+)\s*"""\s*$` (only in `detectFileCreation`,
not in `cleanCodeForFile`). -/
def docstringHeaderTok (l : List Char) : Option (List Char) :=
  headerTok [dq, dq, dq] [dq, dq, dq] l

/-- Regex `^#{1,3}\s+([^\s]+\.\w+)\s*$` (markdown heading with filename). -/
def mdHeaderTok (l : List Char) : Option (List Char) :=
  let k := (l.takeWhile (· == '#')).length
  if 1 ≤ k && k ≤ 3 then
    match l.drop k with
    | c :: r =>
      if wsChar c then
        let body := trimR ((c :: r).dropWhile wsChar)
        if fileTok body then some body else none
      else none
    | [] => none
  else none

/-- Header predicate of `SmartApplyService.cleanCodeForFile`: its five
`fileHeaderPatterns` (no docstring pattern), tried as a disjunction. -/
def fileHeaderStripMatch (l : List Char) : Bool :=
  (slashHeaderTok l).isSome || (hashHeaderTok l).isSome || (blockHeaderTok l).isSome ||
  (htmlHeaderTok l).isSome || (mdHeaderTok l).isSome

/-- Embeds `SmartApplyService.cleanCodeForFile`: strips the first line (then
`trimStart`s the rest) when the first line matches one of its five header
patterns. -/
def cleanCodeForFile (code : List Char) : List Char :=
  let lines := splitLines code
  let firstLine := lines.getD 0 []
  if fileHeaderStripMatch firstLine then trimL (joinLines (lines.drop 1))
  else code

/-- The five `fileCommentPatterns` of `IntentDetector.detectFileCreation`,
tried in source order, returning the first captured path. -/
def firstHeaderTok (l : List Char) : Option (List Char) :=
  match slashHeaderTok l with
  | some t => some t
  | none =>
    match hashHeaderTok l with
    | some t => some t
    | none =>
      match blockHeaderTok l with
      | some t => some t
      | none =>
        match htmlHeaderTok l with
        | some t => some t
        | none => docstringHeaderTok l

/-- Disjunction of all header patterns the classifier's create stage
recognizes as a path-bearing first line (path comments, docstring, markdown
heading). -/
def fileCreationHeaderMatch (l : List Char) : Bool :=
  (firstHeaderTok l).isSome || (mdHeaderTok l).isSome

/-! ## IntentDetector (src/services/IntentDetector.ts) -/

/-- Intents of `DetectedIntent.intent`. -/
inductive Intent where
  | create
  | edit
  | command
deriving DecidableEq, Repr

/-- Result record of `IntentDetector.detect`. -/
structure DetectedIntent where
  intent : Intent
  confidence : ℚ
  target : Option (List Char) := none
  anchor : Option (List Char) := none
deriving DecidableEq, Repr

/-- Number of lines (`IntentDetector.getLineCount`). -/
def getLineCount (code : List Char) : Nat := (splitLines code).length

/-- Matcher for the shell-prompt regex `^[$>%]\s+(.+)$`. -/
def shellPromptTest (line : List Char) : Bool :=
  match line with
  | c0 :: c1 :: rest =>
    (c0 == '$' || c0 == '>' || c0 == '%') && wsChar c1 && !rest.isEmpty
  | _ => false

/-- Matcher for regexes of shape `^(tool1|tool2|…)\s+(verb1|verb2|…)` applied
case-insensitively: one of the tools at the start, at least one whitespace,
then one of the verbs as a prefix of the remainder.  An empty verb list entry
encodes a regex with nothing after `\s+`. -/
def cmdToolVerb (tools verbs : List (List Char)) (line : List Char) : Bool :=
  tools.any fun t =>
    match stripPre t line with
    | some (c :: r) =>
      wsChar c &&
        (verbs.any fun v => (stripPre v ((c :: r).dropWhile wsChar)).isSome)
    | _ => false

/-- Embeds `IntentDetector.detectCommand`: the ordered chain of command
pattern tests with their confidences, ending with the weak single-line rule
(0.4) and the zero-confidence default. -/
def detectCommand (code : List Char) : DetectedIntent :=
  let trimmed := trimBoth code
  let lines := splitLines trimmed
  let firstLine := trimBoth (lines.getD 0 [])
  let low := lower firstLine
  if shellPromptTest firstLine then ⟨.command, mkRat 95 100, none, none⟩
  else if cmdToolVerb (["npm", "yarn", "pnpm", "npx"].map String.toList)
      (["install", "run", "start", "test", "build", "dev", "init", "create"].map String.toList)
      low then ⟨.command, mkRat 90 100, none, none⟩
  else if cmdToolVerb (["pip", "pip3", "python", "python3"].map String.toList)
      (["install", "run", "-m"].map String.toList) low then ⟨.command, mkRat 90 100, none, none⟩
  else if cmdToolVerb (["cargo"].map String.toList)
      (["build", "run", "test", "new", "init", "add"].map String.toList) low then
    ⟨.command, mkRat 90 100, none, none⟩
  else if cmdToolVerb (["go"].map String.toList)
      (["run", "build", "test", "mod", "get"].map String.toList) low then
    ⟨.command, mkRat 90 100, none, none⟩
  else if cmdToolVerb (["git"].map String.toList)
      (["clone", "pull", "push", "commit", "checkout", "branch", "merge", "rebase",
        "stash", "add", "status", "diff"].map String.toList) low then
    ⟨.command, mkRat 90 100, none, none⟩
  else if cmdToolVerb (["docker", "docker-compose"].map String.toList)
      (["run", "build", "pull", "push", "up", "down", "exec", "ps", "logs"].map String.toList)
      low then ⟨.command, mkRat 90 100, none, none⟩
  else if cmdToolVerb (["kubectl"].map String.toList)
      (["apply", "get", "describe", "logs", "exec", "delete", "create"].map String.toList)
      low then ⟨.command, mkRat 90 100, none, none⟩
  else if cmdToolVerb (["curl", "wget", "ssh", "scp", "rsync", "chmod", "chown", "mkdir",
      "rm", "cp", "mv", "cat", "grep", "find", "awk", "sed", "head", "tail"].map String.toList)
      [[]] low then ⟨.command, mkRat 85 100, none, none⟩
  else if decide (lines.length = 1) &&
      !strIncludes firstLine ['\x7b'] &&
      !strIncludes firstLine ("function".toList) &&
      !strIncludes firstLine ("class".toList) &&
      !strIncludes firstLine ("def ".toList) &&
      !strIncludes firstLine ("import ".toList) &&
      !strIncludes firstLine ("const ".toList) &&
      !strIncludes firstLine ("let ".toList) &&
      !strIncludes firstLine ("var ".toList) then ⟨.command, mkRat 40 100, none, none⟩
  else ⟨.command, 0, none, none⟩

/-- Matcher for a keyword at the head followed by one whitespace character
(regex alternatives of shape `kw\s`). -/
def headKwWs (kw : List Char) (s : List Char) : Bool :=
  match stripPre kw s with
  | some (c :: _) => wsChar c
  | _ => false

/-- Matcher for the regex `^(import\s|from\s|require\(|use\s|using\s)` of
`detectFileCreation` (`hasImports`). -/
def hasImportsTest (s : List Char) : Bool :=
  headKwWs ("import".toList) s || headKwWs ("from".toList) s ||
  (stripPre ("require(".toList) s).isSome ||
  headKwWs ("use".toList) s || headKwWs ("using".toList) s

/-- Position-wise matcher for `(export\s+(default\s+)?|module\.exports\s*=)`
(`hasExports` in `detectFileCreation`; the optional `default` group does not
affect matchability). -/
def exportsEqAt (s : List Char) : Bool :=
  headKwWs ("export".toList) s ||
  (match stripPre ("module.exports".toList) s with
   | some u =>
     wsStarThen (fun v => match v with
       | '=' :: _ => true
       | _ => false) u
   | none => false)

/-- Tries a position-wise matcher at every suffix (an unanchored regex
search). -/
def anySuffix (p : List Char → Bool) : List Char → Bool
  | [] => p []
  | c :: r => p (c :: r) || anySuffix p r

/-- Matcher for a keyword followed by `\s+\w+` (used by the
class/function/def/fn/func alternatives). -/
def kwWsWord (kw : List Char) (s : List Char) : Bool :=
  match stripPre kw s with
  | some (c :: r) =>
    wsChar c &&
      (match (c :: r).dropWhile wsChar with
       | d :: _ => wordChar d
       | [] => false)
  | _ => false

/-- Position-wise matcher for
`(class\s+\w+|function\s+\w+|def\s+\w+|fn\s+\w+|func\s+\w+)`. -/
def classFnAt (s : List Char) : Bool :=
  kwWsWord ("class".toList) s || kwWsWord ("function".toList) s ||
  kwWsWord ("def".toList) s || kwWsWord ("fn".toList) s || kwWsWord ("func".toList) s

/-- Applies a position-wise matcher after each newline (the `(^|\n)` anchor,
positions after the first). -/
def afterNewlines (p : List Char → Bool) : List Char → Bool
  | [] => false
  | '\n' :: r => p r || afterNewlines p r
  | _ :: r => afterNewlines p r

/-- Matcher for `(^|\n)PAT`: at the string start or after any newline. -/
def atLineStarts (p : List Char → Bool) (s : List Char) : Bool :=
  p s || afterNewlines p s

/-- Matcher for `hasClassOrFunction` of `detectFileCreation`:
`(^|\n)(class\s+\w+|function\s+\w+|def\s+\w+|fn\s+\w+|func\s+\w+)`. -/
def hasClassOrFunctionTest (s : List Char) : Bool :=
  atLineStarts classFnAt s

/-- Matcher for `^{\s*"KEY"\s*:` (package.json / tsconfig.json signatures);
the brace is written via its code point. -/
def jsonKeyTest (key : List Char) (s : List Char) : Bool :=
  match s with
  | c :: r =>
    c == Char.ofNat 123 &&
      wsStarThen (fun t =>
        match stripPre key t with
        | some u =>
          wsStarThen (fun v => match v with
            | ':' :: _ => true
            | _ => false) u
        | none => false) r
  | [] => false

/-- Matcher for `^version\s*=` (Cargo.toml signature). -/
def versionEqTest (s : List Char) : Bool :=
  match stripPre ("version".toList) s with
  | some u =>
    wsStarThen (fun v => match v with
      | '=' :: _ => true
      | _ => false) u
  | none => false

/-- Matcher for `^version:\s*['"]?\d` (docker-compose.yml signature). -/
def versionColonTest (s : List Char) : Bool :=
  match stripPre ("version:".toList) s with
  | some u =>
    wsStarThen (fun v =>
      match v with
      | c :: r =>
        c.isDigit ||
          ((c == sq || c == dq) &&
            (match r with
             | d :: _ => d.isDigit
             | [] => false))
      | [] => false) u
  | none => false

/-- The `configPatterns` disjunction of `detectFileCreation` (package.json,
tsconfig.json, pyproject.toml, Cargo.toml, Dockerfile, docker-compose.yml). -/
def configPatternTest (s : List Char) : Bool :=
  jsonKeyTest (dq :: ("name".toList) ++ [dq]) s ||
  jsonKeyTest (dq :: ("compilerOptions".toList) ++ [dq]) s ||
  (stripPre ("[tool.".toList) s).isSome ||
  versionEqTest s ||
  headKwWs ("FROM".toList) s ||
  versionColonTest s

/-- Matcher/extractor for the language-tag regex `:([^\s]+\.\w+)$`: the first
colon whose entire suffix is a path token. -/
def langPathTok : List Char → Option (List Char)
  | [] => none
  | c :: rest =>
    if c == ':' && fileTok rest then some rest else langPathTok rest

/-- Embeds `IntentDetector.detectFileCreation`: header comments, markdown
heading, `lang:path` tag, complete-module shape, config-file signatures. -/
def detectFileCreation (code language : List Char) : DetectedIntent :=
  let trimmed := trimBoth code
  let lines := splitLines trimmed
  let firstLine := lines.getD 0 []
  match firstHeaderTok firstLine with
  | some t => ⟨.create, mkRat 95 100, some t, none⟩
  | none =>
    match mdHeaderTok firstLine with
    | some t => ⟨.create, mkRat 90 100, some t, none⟩
    | none =>
      match langPathTok language with
      | some t => ⟨.create, mkRat 90 100, some t, none⟩
      | none =>
        if hasImportsTest trimmed &&
            (anySuffix exportsEqAt trimmed || hasClassOrFunctionTest trimmed) &&
            decide (getLineCount code > 20) then
          ⟨.create, mkRat 70 100, none, none⟩
        else if configPatternTest trimmed then ⟨.create, mkRat 85 100, none, none⟩
        else ⟨.create, 0, none, none⟩

/-- Head-part of `^const\s+\w+\s*=\s*require\(`, returning the remainder
after `require(` (shared by the findImportSection test and the single-import
regex of `detectEdit`). -/
def constRequireRest (line : List Char) : Option (List Char) :=
  match stripPre ("const".toList) line with
  | some (c :: r) =>
    if wsChar c then
      let r1 := r.dropWhile wsChar
      let w := r1.takeWhile wordChar
      let r2 := r1.dropWhile wordChar
      if w.isEmpty then none
      else
        match r2.dropWhile wsChar with
        | '=' :: r3 => stripPre ("require(".toList) (r3.dropWhile wsChar)
        | _ => none
    else none
  | _ => none

/-- Matcher for alternatives of shape `kw\s+.+$`: the keyword, at least one
whitespace character, then at least one further character. -/
def kwWsPlusAny (kw : List Char) (s : List Char) : Bool :=
  match stripPre kw s with
  | some (c :: r) => wsChar c && !r.isEmpty
  | _ => false

/-- Scanner for the `from\s+.+\s+import\s+.+$` alternative: looks for
`import` at an index of at least 3 preceded by whitespace and followed by
`\s+.+` (which, with a leading whitespace character, is exactly when the
regex decomposition exists). -/
def fromImportScan : List Char → Nat → Char → Bool
  | s, idx, prevC =>
    (decide (idx ≥ 3) && wsChar prevC &&
      (match stripPre ("import".toList) s with
       | some (c :: r) => wsChar c && !r.isEmpty
       | _ => false)) ||
    (match s with
     | [] => false
     | c :: r => fromImportScan r (idx + 1) c)

/-- Matcher for the `from\s+.+\s+import\s+.+` alternative of the
single-import regex. -/
def fromImportTest (line : List Char) : Bool :=
  match stripPre ("from".toList) line with
  | some s1 =>
    (match s1 with
     | c :: _ => wsChar c
     | [] => false) && fromImportScan s1 0 'x'
  | none => false

/-- Matcher for the `const\s+\w+\s*=\s*require\(.+\)` alternative (anchored:
the closing parenthesis is the final character). -/
def constRequireFullTest (line : List Char) : Bool :=
  match constRequireRest line with
  | some r4 => decide (r4.length ≥ 2) && (r4.getLast? == some ')')
  | none => false

/-- Matcher for the single-import regex of `detectEdit`:
`^(import\s+.+|from\s+.+\s+import\s+.+|const\s+\w+\s*=\s*require\(.+\)|use\s+.+;?)$`. -/
def singleImportLineTest (line : List Char) : Bool :=
  kwWsPlusAny ("import".toList) line || fromImportTest line ||
  constRequireFullTest line || kwWsPlusAny ("use".toList) line

/-- Extractor for `(kw1|…|kwN)\s+(\w+)`: tries the keywords in order and
returns the captured maximal word run. -/
def kwsWordAfter (kws : List (List Char)) (s : List Char) : Option (List Char) :=
  match kws with
  | [] => none
  | kw :: rest =>
    match stripPre kw s with
    | some (c :: r) =>
      if wsChar c then
        let t := (c :: r).dropWhile wsChar
        let w := t.takeWhile wordChar
        if w.isEmpty then kwsWordAfter rest s else some w
      else kwsWordAfter rest s
    | _ => kwsWordAfter rest s

/-- Optional leading `(async\s+)?` group: prefer consuming it (as a
backtracking engine does), fall back to the bare pattern. -/
def asyncThen (p : List Char → Option (List Char)) (s : List Char) : Option (List Char) :=
  match (match stripPre ("async".toList) s with
         | some (c :: r) => if wsChar c then p ((c :: r).dropWhile wsChar) else none
         | _ => none) with
  | some x => some x
  | none => p s

/-- Extractor for `^(async\s+)?(function|const|let|var)\s+(\w+)`
(`singleFunctionRegex`). -/
def funcDeclName (s : List Char) : Option (List Char) :=
  asyncThen (kwsWordAfter (["function", "const", "let", "var"].map String.toList)) s

/-- Extractor for `^(async\s+)?def\s+(\w+)` (`pythonFuncRegex`). -/
def pyFuncName (s : List Char) : Option (List Char) :=
  asyncThen (kwsWordAfter (["def"].map String.toList)) s

/-- Extractor for `(\w+)\s*\(`: a nonempty word run followed by optional
whitespace and an opening parenthesis. -/
def wordThenParen (t : List Char) : Option (List Char) :=
  let w := t.takeWhile wordChar
  if w.isEmpty then none
  else
    let r := t.dropWhile wordChar
    if wsStarThen (fun v => match v with
        | '(' :: _ => true
        | _ => false) r then some w
    else none

/-- Optional alternation group `(kw1|…|kwN)?` followed by `\s*` and a
continuation: keywords are preferred in order (with backtracking into the
continuation), then the group is skipped. -/
def optAlt (kws : List (List Char)) (p : List Char → Option (List Char)) (s : List Char) :
    Option (List Char) :=
  match kws with
  | [] => p (s.dropWhile wsChar)
  | kw :: rest =>
    match stripPre kw s with
    | some u =>
      match p (u.dropWhile wsChar) with
      | some x => some x
      | none => optAlt rest p s
    | none => optAlt rest p s

/-- Position-wise extractor for the multiline method regex
`^\s*(public|private|protected|static|async)?\s*(function|def|fn|func)?\s*(\w+)\s*\(`
(the leading `\s*` may span line breaks, as `\s` matches newlines). -/
def methodNameAtStart (t : List Char) : Option (List Char) :=
  optAlt (["public", "private", "protected", "static", "async"].map String.toList)
    (optAlt (["function", "def", "fn", "func"].map String.toList) wordThenParen)
    (t.dropWhile wsChar)

/-- Scans the positions after each newline with an extractor, returning the
first capture (regex scan order). -/
def afterNewlinesOpt (p : List Char → Option (List Char)) : List Char → Option (List Char)
  | [] => none
  | '\n' :: r =>
    (match p r with
     | some x => some x
     | none => afterNewlinesOpt p r)
  | _ :: r => afterNewlinesOpt p r

/-- Extractor for `trimmed.match(methodRegex)` with the `m` flag: tries the
string start, then the position after each newline. -/
def methodMatchName (s : List Char) : Option (List Char) :=
  match methodNameAtStart s with
  | some x => some x
  | none => afterNewlinesOpt methodNameAtStart s

/-- Position-wise matcher for
`(export\s+(default\s+)?|module\.exports)` (`looksLikeCompleteFile`; note no
equals sign after `module.exports` here, unlike `detectFileCreation`). -/
def llcfExportsAt (s : List Char) : Bool :=
  headKwWs ("export".toList) s || (stripPre ("module.exports".toList) s).isSome

/-- Position-wise matcher for `if\s+__name__\s*==\s*['"]__main__`. -/
def ifMainAt (s : List Char) : Bool :=
  match stripPre ("if".toList) s with
  | some (c :: r) =>
    wsChar c &&
      wsStarThen (fun t =>
        match stripPre ("__name__".toList) t with
        | some u =>
          wsStarThen (fun v =>
            match stripPre ("==".toList) v with
            | some w =>
              wsStarThen (fun x =>
                match x with
                | q :: y => (q == sq || q == dq) && (stripPre ("__main__".toList) y).isSome
                | [] => false) w
            | none => false) u
        | none => false) r
  | _ => false

/-- Position-wise matcher for the main/entry-point alternation
`(if\s+__name__\s*==\s*['"]__main__|fn\s+main\s*\(|func\s+main\s*\(|int\s+main\s*\()`. -/
def mainEntryAt (s : List Char) : Bool :=
  ifMainAt s ||
  kwNameTail ("fn".toList) ("main".toList) '(' s ||
  kwNameTail ("func".toList) ("main".toList) '(' s ||
  kwNameTail ("int".toList) ("main".toList) '(' s

/-- Embeds `IntentDetector.looksLikeCompleteFile`: counts the indicators
(shebang, imports at top, main/entry pattern, exports) and accepts at 2 or
more. -/
def looksLikeCompleteFile (code : List Char) : Bool :=
  let hasShebang := (stripPre ("#!".toList) code).isSome
  let hasImportsAtTop := hasImportsTest code || headKwWs ("package".toList) code
  let hasMainOrEntry := anySuffix mainEntryAt code
  let hasExports := anySuffix llcfExportsAt code
  let indicators := (if hasShebang then 1 else 0) + (if hasImportsAtTop then 1 else 0) +
    (if hasMainOrEntry then 1 else 0) + (if hasExports then 1 else 0)
  decide (indicators ≥ 2)

/-- Embeds `IntentDetector.detectEdit`: single import (anchor `imports`),
JS/TS function declaration, Python function, method shape, and the short
non-complete-file fallback, with the source's line-count guards. -/
def detectEdit (code language : List Char) (activeFile : Option (List Char)) :
    DetectedIntent :=
  let trimmed := trimBoth code
  let lines := splitLines trimmed
  let lineCount := lines.length
  if decide (lineCount ≤ 3) && lines.any (fun l => singleImportLineTest (trimBoth l)) then
    ⟨.edit, mkRat 85 100, none, some ("imports".toList)⟩
  else if (funcDeclName trimmed).isSome && decide (lineCount < 30) then
    ⟨.edit, mkRat 70 100, none, funcDeclName trimmed⟩
  else if (pyFuncName trimmed).isSome && decide (lineCount < 30) then
    ⟨.edit, mkRat 70 100, none, pyFuncName trimmed⟩
  else if (methodMatchName trimmed).isSome && decide (lineCount < 40) &&
      !strIncludes trimmed ("class ".toList) then
    ⟨.edit, mkRat 60 100, none, methodMatchName trimmed⟩
  else if decide (lineCount < 20) && !looksLikeCompleteFile trimmed then
    ⟨.edit, mkRat 50 100, none, none⟩
  else ⟨.edit, 0, none, none⟩

/-- Embeds `IntentDetector.detect`: command stage (accepted above 0.8),
create stage (above 0.7), edit stage (above 0.5), then the active-file edit
fallback (0.4, blocks under 50 lines) and the create fallback (0.3). -/
def detect (code language : List Char) (activeFile : Option (List Char)) :
    DetectedIntent :=
  let commandIntent := detectCommand code
  if commandIntent.confidence > mkRat 80 100 then commandIntent
  else
    let createIntent := detectFileCreation code language
    if createIntent.confidence > mkRat 70 100 then createIntent
    else
      let editIntent := detectEdit code language activeFile
      if editIntent.confidence > mkRat 50 100 then editIntent
      else if activeFile.isSome && decide (getLineCount code < 50) then
        ⟨.edit, mkRat 40 100, none, none⟩
      else ⟨.create, mkRat 30 100, none, none⟩

/-- The confidence constants of the embedding, written as `mkRat` so that
they compute in the kernel, equal the source's decimal literals. -/
theorem confidence_literals :
    mkRat 95 100 = (0.95 : ℚ) ∧ mkRat 90 100 = (0.9 : ℚ) ∧ mkRat 85 100 = (0.85 : ℚ) ∧
    mkRat 80 100 = (0.8 : ℚ) ∧ mkRat 70 100 = (0.7 : ℚ) ∧ mkRat 60 100 = (0.6 : ℚ) ∧
    mkRat 50 100 = (0.5 : ℚ) ∧ mkRat 40 100 = (0.4 : ℚ) ∧ mkRat 30 100 = (0.3 : ℚ) := by
  norm_num [Rat.mkRat_eq_div]

/-! ## SmartApplyService (src/services/SmartApplyService.ts) -/

/-- Actions of `ApplyResult.action`. -/
inductive ApplyAction where
  | created
  | edited
  | sent_to_terminal
  | preview_shown
  | cancelled
  | error
deriving DecidableEq, Repr

/-- Result record of `SmartApplyService.apply`. -/
structure ApplyResult where
  success : Bool
  action : ApplyAction
  message : Option (List Char) := none
  changeId : Option Nat := none
deriving DecidableEq, Repr

/-- Payload record (`ApplyPayload`): `target`/`anchor` are optional hints;
absent or empty-string hints are modelled as `none` (the source tests them by
truthiness). -/
structure ApplyPayload where
  code : List Char
  language : List Char
  intent : Intent
  target : Option (List Char) := none
  anchor : Option (List Char) := none
deriving DecidableEq, Repr

/-- Preview policy values of `mistral.apply.previewMode`. -/
inductive PreviewMode where
  | always
  | edits_only
  | never
deriving DecidableEq, Repr

/-- Configuration record (`SmartApplyConfig`). -/
inductive CreateFileLocation where
  | workspace_root
  | current_folder
  | ask
deriving DecidableEq, Repr

/-- Configuration record (`SmartApplyConfig`). -/
structure SmartApplyConfig where
  previewMode : PreviewMode
  autoDetectIntent : Bool
  createFileLocation : CreateFileLocation
  showFallbackWarnings : Bool
deriving DecidableEq, Repr

/-- Intent-resolution and payload-filling step of
`SmartApplyService.applySingle`: when auto-detection is enabled and the
detected confidence exceeds 0.6, the detected intent is adopted (the first
component) and detected `target`/`anchor` fill only payload fields not
already supplied; the payload's own `intent` field is never modified. -/
def applySingleRoute (config : SmartApplyConfig) (activeFile : Option (List Char))
    (payload : ApplyPayload) : Intent × ApplyPayload :=
  if config.autoDetectIntent then
    let detected := detect payload.code payload.language activeFile
    if detected.confidence > mkRat 60 100 then
      (detected.intent,
        { payload with
          target := if detected.target.isSome && payload.target.isNone then detected.target
                    else payload.target,
          anchor := if detected.anchor.isSome && payload.anchor.isNone then detected.anchor
                    else payload.anchor })
    else (payload.intent, payload)
  else (payload.intent, payload)

/-- Preview decision of `SmartApplyService.handleEdit`:
`config.previewMode === "always" || (config.previewMode === "edits_only" &&
payload.intent === "edit")` — note it reads the payload's `intent` field. -/
def shouldPreview (config : SmartApplyConfig) (payload : ApplyPayload) : Bool :=
  decide (config.previewMode = .always) ||
    (decide (config.previewMode = .edits_only) && decide (payload.intent = .edit))

/-- Message `Applied N files` returned by a fully successful batch. -/
def appliedMsg (n : Nat) : List Char :=
  ("Applied ".toList) ++ (Nat.repr n).toList ++ (" files".toList)

/-- Loop body of the batch branch of `SmartApplyService.apply`: processes the
units in order against a unit processor `step` (modelling `applySingle`
together with its effects on a state `σ`), returning `some` failing result at
the first unit whose result has `success = false`. -/
def applyBatchGo {σ : Type} (step : ApplyPayload → σ → ApplyResult × σ) :
    List ApplyPayload → σ → Option ApplyResult × σ
  | [], s => (none, s)
  | p :: rest, s =>
    if (step p s).1.success then applyBatchGo step rest (step p s).2
    else (some (step p s).1, (step p s).2)

/-- Embeds the batch branch of `SmartApplyService.apply`: fail-fast loop in
array order; if every unit succeeds, `{success:true, action:"created",
message:"Applied N files"}` with `N` the array length. -/
def applyBatch {σ : Type} (step : ApplyPayload → σ → ApplyResult × σ)
    (payloads : List ApplyPayload) (s : σ) : ApplyResult × σ :=
  match applyBatchGo step payloads s with
  | (some r, s') => (r, s')
  | (none, s') => (⟨true, .created, some (appliedMsg payloads.length), none⟩, s')

/-- All units of a list succeed when processed sequentially from state `s`. -/
def allSucceed {σ : Type} (step : ApplyPayload → σ → ApplyResult × σ) :
    List ApplyPayload → σ → Prop
  | [], _ => True
  | p :: rest, s => (step p s).1.success = true ∧ allSucceed step rest (step p s).2

instance {σ : Type} (step : ApplyPayload → σ → ApplyResult × σ)
    (ps : List ApplyPayload) (s : σ) : Decidable (allSucceed step ps s) := by
  induction ps generalizing s with
  | nil => exact .isTrue trivial
  | cons p rest ih => exact @instDecidableAnd _ _ _ (ih (step p s).2)

/-- State after sequentially processing a list of units. -/
def stateAfter {σ : Type} (step : ApplyPayload → σ → ApplyResult × σ) :
    List ApplyPayload → σ → σ
  | [], s => s
  | p :: rest, s => stateAfter step rest (step p s).2

/-! ## DiffPreviewService (src/services/DiffPreviewService.ts) -/

/-- Record of a staged change (`PendingChange`); `createdAt` is a timestamp
in milliseconds and `originalUri` a document identity. -/
structure PendingChange where
  id : Nat
  originalUri : Nat
  position : Pos
  range : Option SymRange := none
  newCode : List Char
  proposedContent : List Char
  createdAt : Nat
deriving DecidableEq, Repr

/-- Appends a suffix to the last line of a nonempty list of lines. -/
def spliceEndsLast (suf : List Char) : List (List Char) → List (List Char)
  | [] => []
  | [l] => [l ++ suf]
  | l :: rest => l :: spliceEndsLast suf rest

/-- Splices multi-line replacement code between a start-line prefix and an
end-line suffix (the multi-line branch of `generateProposedContent`). -/
def spliceEnds (pre suf : List Char) : List (List Char) → List (List Char)
  | [] => []
  | [l] => [pre ++ l ++ suf]
  | l :: rest => (pre ++ l) :: spliceEndsLast suf rest

/-- Embeds `DiffPreviewService.generateProposedContent`: with a range,
replace it preserving the start line's prefix and the end line's suffix;
without a range, insert at the position (appending after a final newline when
the line is beyond the end of the document). -/
def generateProposedContent (originalText : List Char) (position : Pos)
    (newCode : List Char) (range : Option SymRange) : List Char :=
  let lines := splitLines originalText
  match range with
  | some r =>
    let beforeLines := lines.take r.start.line
    let afterLines := lines.drop (r.stop.line + 1)
    let startLinePre := (lines.getD r.start.line []).take r.start.character
    let endLineSuf := (lines.getD r.stop.line []).drop r.stop.character
    let newLines := splitLines newCode
    if newLines.length = 1 then
      joinLines (beforeLines ++ [startLinePre ++ newCode ++ endLineSuf] ++ afterLines)
    else
      joinLines (beforeLines ++ spliceEnds startLinePre endLineSuf newLines ++ afterLines)
  | none =>
    if position.line ≥ lines.length then originalText ++ '\n' :: newCode
    else
      let currentLine := lines.getD position.line []
      let beforeChar := currentLine.take position.character
      let afterChar := currentLine.drop position.character
      joinLines (lines.set position.line (beforeChar ++ newCode ++ afterChar))

/-- Lookup in the id-keyed pending-change map (`Map.prototype.get`). -/
def mapGet (m : List (Nat × PendingChange)) (k : Nat) : Option PendingChange :=
  match m with
  | [] => none
  | (k', v) :: rest => if k' = k then some v else mapGet rest k

/-- Deletion from the id-keyed map (`Map.prototype.delete`; ids are unique,
modelled by removing every binding of the key). -/
def mapDel (m : List (Nat × PendingChange)) (k : Nat) : List (Nat × PendingChange) :=
  m.filter (fun e => e.1 ≠ k)

/-- State owned by `DiffPreviewService` together with the document store it
edits: the pending-change map and the text of each document by identity.
UI notifications (warning/info messages, closing the diff view) are advisory
external effects and are not part of the state. -/
structure DiffState where
  pending : List (Nat × PendingChange)
  docs : List (Nat × List Char)
deriving DecidableEq, Repr

/-- One atomic editor edit applying a stored change to the current content of
its document (`DiffPreviewService.applyChange`: replace the range, or insert
at the position). -/
def docApply (docs : List (Nat × List Char)) (change : PendingChange) :
    List (Nat × List Char) :=
  docs.map (fun e =>
    if e.1 = change.originalUri then
      (e.1, generateProposedContent e.2 change.position change.newCode change.range)
    else e)

/-- Embeds `DiffPreviewService.acceptChange`.  `editOk` is the boolean
outcome of the awaited `editor.edit` collaborator call (false also covers a
thrown collaborator error, which the source catches and converts to
`false`): on success the change is deleted and `true` returned; on failure
the change is kept; an unknown id returns `false` with no mutation. -/
def acceptChange (editOk : Bool) (st : DiffState) (changeId : Nat) : Bool × DiffState :=
  match mapGet st.pending changeId with
  | none => (false, st)
  | some change =>
    if editOk then
      (true, ⟨mapDel st.pending changeId, docApply st.docs change⟩)
    else (false, st)

/-- Embeds `DiffPreviewService.rejectChange`: deletes the entry when present
(closing the diff view is an external effect), never touches documents. -/
def rejectChange (st : DiffState) (changeId : Nat) : DiffState :=
  match mapGet st.pending changeId with
  | none => st
  | some _ => ⟨mapDel st.pending changeId, st.docs⟩

theorem mapGet_mapDel (m : List (Nat × PendingChange)) (k : Nat) :
    mapGet (mapDel m k) k = none := by
  induction m with
  | nil => rfl
  | cons e rest ih =>
    obtain ⟨k', v⟩ := e
    by_cases hk : k' = k
    · simpa [mapDel, hk] using ih
    · simpa [mapDel, mapGet, hk] using ih

/-! ## Interleaving model of concurrent acceptChange calls

The source's `acceptChange` is an async function whose body falls into three
atomic segments separated by `await` points: (1) the map lookup (plus finding
an editor), (2) the awaited `editor.edit` mutation, (3) the commit that
deletes the entry and returns.  Two concurrent calls for the same id are two
such tasks whose segments interleave in some schedule; JavaScript runs each
segment atomically. -/

/-- Progress of one in-flight `acceptChange(changeId)` call. -/
inductive AccPhase where
  | ready
  | editing (change : PendingChange)
  | committing (change : PendingChange) (ok : Bool)
  | finished (res : Bool)
deriving DecidableEq, Repr

/-- One atomic segment of `acceptChange`: lookup (absent id finishes with
`false`), the awaited edit (mutating the document when the collaborator
succeeds), and the commit (deleting the entry and returning the edit's
outcome). -/
def accStep (changeId : Nat) (editOk : Bool) (ph : AccPhase)
    (pending : List (Nat × PendingChange)) (docs : List (Nat × List Char)) :
    AccPhase × List (Nat × PendingChange) × List (Nat × List Char) :=
  match ph with
  | .ready =>
    (match mapGet pending changeId with
     | none => (.finished false, pending, docs)
     | some ch => (.editing ch, pending, docs))
  | .editing ch =>
    if editOk then (.committing ch true, pending, docApply docs ch)
    else (.committing ch false, pending, docs)
  | .committing ch ok =>
    if ok then (.finished true, mapDel pending changeId, docs)
    else (.finished false, pending, docs)
  | .finished r => (.finished r, pending, docs)

/-- Shared state of two racing `acceptChange` calls for the same id. -/
structure RaceState where
  pending : List (Nat × PendingChange)
  docs : List (Nat × List Char)
  taskA : AccPhase
  taskB : AccPhase
deriving DecidableEq, Repr

/-- Runs one schedule entry (`true` steps task A, `false` steps task B). -/
def raceStep (changeId : Nat) (okA okB : Bool) (chooseA : Bool) (st : RaceState) :
    RaceState :=
  if chooseA then
    let r := accStep changeId okA st.taskA st.pending st.docs
    { st with taskA := r.1, pending := r.2.1, docs := r.2.2 }
  else
    let r := accStep changeId okB st.taskB st.pending st.docs
    { st with taskB := r.1, pending := r.2.1, docs := r.2.2 }

/-- Runs a whole schedule of interleaved segments. -/
def raceRun (changeId : Nat) (okA okB : Bool) (sched : List Bool) (st : RaceState) :
    RaceState :=
  sched.foldl (fun s c => raceStep changeId okA okB c s) st

/-! ## Offsets and splicing (support for the proposed-content round trip) -/

/-- Character offset of line/character coordinates within a list of lines
joined by newlines (the character index is taken literally). -/
def offsetAt : List (List Char) → Nat → Nat → Nat
  | _, 0, char => char
  | [], _ + 1, char => char
  | l :: rest, n + 1, char => l.length + 1 + offsetAt rest n char

theorem joinLines_cons_ne (l : List Char) (ls : List (List Char)) (h : ls ≠ []) :
    joinLines (l :: ls) = l ++ '\n' :: joinLines ls := by
  cases ls with
  | nil => exact absurd rfl h
  | cons m ms => rfl

/-- Setting line `i` to a spliced version of itself splices the joined text
at the corresponding character offset. -/
theorem joinLines_set_splice (code : List Char) :
    ∀ (i : Nat) (lines : List (List Char)) (char : Nat),
    i < lines.length → char ≤ (lines.getD i []).length →
    ∃ A B, joinLines lines = A ++ B ∧ A.length = offsetAt lines i char ∧
      joinLines (lines.set i
          ((lines.getD i []).take char ++ code ++ (lines.getD i []).drop char))
        = A ++ code ++ B := by
  intro i
  induction i with
  | zero =>
    intro lines char hi hc
    match lines with
    | l :: ls =>
      have hlen : (l.take char).length = char := by
        simp only [List.getD_cons_zero] at hc
        simp [List.length_take, Nat.min_eq_left hc]
      cases ls with
      | nil =>
        refine ⟨l.take char, l.drop char, ?_, hlen, ?_⟩
        · simp [joinLines]
        · simp [joinLines, List.set]
      | cons m ms =>
        refine ⟨l.take char, l.drop char ++ '\n' :: joinLines (m :: ms), ?_, hlen, ?_⟩
        · rw [joinLines_cons_ne l (m :: ms) (by simp), ← List.append_assoc,
            List.take_append_drop]
        · rw [List.set_cons_zero, List.getD_cons_zero,
            joinLines_cons_ne _ (m :: ms) (by simp)]
          simp
  | succ n ih =>
    intro lines char hi hc
    match lines with
    | l :: ls =>
      have hi' : n < ls.length := by simpa using Nat.lt_of_succ_lt_succ hi
      have hls : ls ≠ [] := by
        intro h
        rw [h] at hi'
        exact Nat.not_lt_zero n hi'
      have hc' : char ≤ (ls.getD n []).length := by simpa using hc
      obtain ⟨A', B', h1, h2, h3⟩ := ih ls char hi' hc'
      have hset : ls.set n ((ls.getD n []).take char ++ code ++ (ls.getD n []).drop char) ≠ [] := by
        intro h
        have := congrArg List.length h
        simp at this
        rw [this] at hi'
        exact Nat.not_lt_zero n hi'
      refine ⟨l ++ '\n' :: A', B', ?_, ?_, ?_⟩
      · rw [joinLines_cons_ne l ls hls, h1]
        simp
      · simp only [List.length_append, List.length_cons, h2, offsetAt]
        omega
      · rw [List.set_cons_succ, List.getD_cons_succ,
          joinLines_cons_ne l _ hset, h3]
        simp

/-! ## Claim theorems -/

/-- C1 counterexample: with the symbol tree containing exactly
`formatDateTime`, the anchor `formatDate` absent from the document text
(`hello world`), and an edit distance of 4, the resolver nevertheless
returns `fuzzy_symbol` — the fuzzy stage succeeds by containment, so the
claimed `cursor_fallback` outcome is wrong. -/
theorem C1_counterexample :
    (resolveAnchor
        (some (.cons (.mk ("formatDateTime".toList) ⟨⟨4, 2⟩, ⟨9, 1⟩⟩ .nil) .nil))
        ("hello world".toList) (some ("formatDate".toList)) ⟨3, 1⟩).method
      = ResolutionMethod.fuzzy_symbol ∧
    (resolveAnchor
        (some (.cons (.mk ("formatDateTime".toList) ⟨⟨4, 2⟩, ⟨9, 1⟩⟩ .nil) .nil))
        ("hello world".toList) (some ("formatDate".toList)) ⟨3, 1⟩).method
      ≠ ResolutionMethod.cursor_fallback ∧
    levenshteinDistance (lower ("formatDateTime".toList)) (lower ("formatDate".toList)) = 4 ∧
    strIncludes (lower ("hello world".toList)) (lower ("formatDate".toList)) = false := by
  decide

/-- C1 (amended): for a document whose symbol tree contains
`formatDateTime`, resolving the anchor `formatDate` has the exact stage fail
but the fuzzy stage succeed via the containment test (the candidate name
contains the anchor), before the edit-distance test is even decisive, so the
result is `fuzzy_symbol` naming `formatDateTime` — text search and cursor
fallback are never reached, whatever the document text. -/
theorem C1_theorem (text : List Char) (cursorPosition : Pos) (rng : SymRange) :
    resolveAnchor (some (.cons (.mk ("formatDateTime".toList) rng .nil) .nil)) text
        (some ("formatDate".toList)) cursorPosition
      = ⟨rng.start, some rng, .fuzzy_symbol, some ("formatDateTime".toList)⟩ := rfl

/-- C6: when the anchor is not the `imports` special case, both symbol
stages fail for whatever the symbol index returned (a failing index, `none`,
and an empty list are both treated as no symbols), and text search fails,
`resolveAnchor` returns exactly the supplied cursor position tagged
`cursor_fallback`; being a total Lean function, it terminates and cannot
throw. -/
theorem C6_theorem (symbolsOpt : Option DocSymbolList) (text anchor : List Char)
    (cursorPosition : Pos)
    (himp : lower anchor ≠ ("imports".toList))
    (hsym : ∀ symbols, symbolsOpt = some symbols →
      findSymbol symbols anchor .exactMode = none ∧ findSymbol symbols anchor .fuzzyMode = none)
    (htext : findTextMatch text anchor = none) :
    resolveAnchor symbolsOpt text (some anchor) cursorPosition
      = ⟨cursorPosition, none, .cursor_fallback, none⟩ := by
  have hchain : resolveSymbolsAndText symbolsOpt text anchor cursorPosition
      = ⟨cursorPosition, none, .cursor_fallback, none⟩ := by
    cases symbolsOpt with
    | none => simp [resolveSymbolsAndText, htext]
    | some symbols =>
      obtain ⟨he, hf⟩ := hsym symbols rfl
      by_cases hlen : symbols.length > 0
      · simp [resolveSymbolsAndText, hlen, he, hf, htext]
      · simp [resolveSymbolsAndText, hlen, htext]
  simp only [resolveAnchor]
  rw [if_neg himp]
  exact hchain

/-- C6 witness: a concrete document, anchor and symbol tree on which every
stage fails and the cursor position comes back tagged `cursor_fallback`. -/
theorem C6_witness :
    resolveAnchor (some (.cons (.mk ("aaaaaaaaaa".toList) ⟨⟨4, 2⟩, ⟨9, 1⟩⟩ .nil) .nil))
        ("hello".toList) (some ("zzz".toList)) ⟨2, 3⟩
      = ⟨⟨2, 3⟩, none, .cursor_fallback, none⟩ :=
  C6_theorem _ _ _ _ (by decide)
    (fun s hs => by
      injection hs with h
      subst h
      exact ⟨rfl, rfl⟩)
    rfl

/-- The import-section locator always produces a position: every return path
of `findImportSection` yields one, the last being position `(0,0)`. -/
theorem findImportSection_isSome (text : List Char) :
    ∃ p, findImportSection text = some p := by
  rcases h : importScan (splitLines text) 0 none with _ | i
  · rcases h2 : firstContentLine (splitLines text) 0 with _ | j
    · exact ⟨⟨0, 0⟩, by simp [findImportSection, h, h2]⟩
    · exact ⟨⟨j, 0⟩, by simp [findImportSection, h, h2]⟩
  · exact ⟨⟨i + 1, 0⟩, by simp [findImportSection, h]⟩

/-- C10: for an anchor case-insensitively equal to `imports`, `resolveAnchor`
always returns the import-section locator's position tagged `text_search`
(the locator always produces a position, so the symbol stages and the cursor
fallback are never reached), for every document, cursor and symbol index. -/
theorem C10_theorem (symbolsOpt : Option DocSymbolList) (text anchor : List Char)
    (cursorPosition : Pos) (h : lower anchor = ("imports".toList)) :
    ∃ p, findImportSection text = some p ∧
      resolveAnchor symbolsOpt text (some anchor) cursorPosition
        = ⟨p, none, .text_search, none⟩ := by
  obtain ⟨p, hp⟩ := findImportSection_isSome text
  refine ⟨p, hp, ?_⟩
  simp only [resolveAnchor]
  rw [if_pos h, hp]

/-- C10 witness: the anchor `IMPORTS` on a concrete two-line document
resolves via the locator to the line after the import section, tagged
`text_search`. -/
theorem C10_witness :
    ∃ p, findImportSection ("import a\ncode".toList) = some p ∧
      resolveAnchor none ("import a\ncode".toList) (some ("IMPORTS".toList)) ⟨5, 5⟩
        = ⟨p, none, .text_search, none⟩ :=
  C10_theorem none ("import a\ncode".toList) ("IMPORTS".toList) ⟨5, 5⟩ (by decide)

/-- C2 counterexample: with `previewMode = edits_only` and auto-detection on,
the payload `{code := "import foo", intent := create}` is auto-detected as an
edit (confidence 0.85 > 0.6) and dispatched to `handleEdit`, so the final
intent is `edit`; yet `handleEdit`'s preview decision reads the payload's own
`intent` field (still `create`) and performs a direct edit instead of showing
a preview — refuting "preview exactly when the final intent is edit". -/
theorem C2_counterexample :
    (applySingleRoute ⟨.edits_only, true, .ask, true⟩ none
        ⟨("import foo".toList), ("ts".toList), .create, none, none⟩).1 = Intent.edit ∧
    shouldPreview ⟨.edits_only, true, .ask, true⟩
        ((applySingleRoute ⟨.edits_only, true, .ask, true⟩ none
          ⟨("import foo".toList), ("ts".toList), .create, none, none⟩).2) = false := by
  decide

/-- C2 (amended): under `previewMode = edits_only`, `handleEdit` shows a
preview exactly when the **payload's original `intent` field** is `edit`:
auto-detection can override the dispatched intent and fill `target`/`anchor`,
but never rewrites the `intent` field that the preview decision consults. -/
theorem C2_theorem (config : SmartApplyConfig) (activeFile : Option (List Char))
    (payload : ApplyPayload) (h : config.previewMode = .edits_only) :
    (shouldPreview config (applySingleRoute config activeFile payload).2 = true
      ↔ payload.intent = .edit) := by
  have hint : ((applySingleRoute config activeFile payload).2).intent = payload.intent := by
    simp only [applySingleRoute]
    split_ifs <;> rfl
  simp [shouldPreview, h, hint]

/-- C2 witness: a concrete `edits_only` configuration and explicit-edit
payload on which the amended equivalence holds. -/
theorem C2_witness :
    (shouldPreview ⟨.edits_only, false, .ask, true⟩
        (applySingleRoute ⟨.edits_only, false, .ask, true⟩ none
          ⟨("x".toList), ("ts".toList), .edit, none, none⟩).2 = true
      ↔ (⟨("x".toList), ("ts".toList), .edit, none, none⟩ : ApplyPayload).intent = .edit) :=
  C2_theorem ⟨.edits_only, false, .ask, true⟩ none
    ⟨("x".toList), ("ts".toList), .edit, none, none⟩ rfl

theorem applyBatchGo_all {σ : Type} (step : ApplyPayload → σ → ApplyResult × σ) :
    ∀ (ps : List ApplyPayload) (s : σ), allSucceed step ps s →
      applyBatchGo step ps s = (none, stateAfter step ps s) := by
  intro ps
  induction ps with
  | nil => intro s _; rfl
  | cons p rest ih =>
    intro s hall
    obtain ⟨h1, h2⟩ := hall
    simp only [applyBatchGo, stateAfter, h1, if_true]
    exact ih (step p s).2 h2

theorem applyBatchGo_append_fail {σ : Type} (step : ApplyPayload → σ → ApplyResult × σ) :
    ∀ (prior : List ApplyPayload) (b : ApplyPayload) (cs : List ApplyPayload) (s : σ),
      allSucceed step prior s →
      (step b (stateAfter step prior s)).1.success = false →
      applyBatchGo step (prior ++ b :: cs) s
        = (some (step b (stateAfter step prior s)).1, (step b (stateAfter step prior s)).2) := by
  intro prior
  induction prior with
  | nil =>
    intro b cs s _ hfail
    simp only [stateAfter] at hfail
    simp only [List.nil_append, applyBatchGo, stateAfter, hfail]
    simp
  | cons p rest ih =>
    intro b cs s hall hfail
    obtain ⟨h1, h2⟩ := hall
    simp only [stateAfter] at hfail ⊢
    simp only [List.cons_append, applyBatchGo, h1, if_true]
    exact ih b cs (step p s).2 h2 hfail

/-- C3: the batch loop of `apply` processes units strictly in array order:
if every unit of a prior segment succeeds and the next unit fails, the batch
returns that unit's failing result with the state as of that unit — no later
unit is processed, so later effects never happen; and if every unit succeeds,
the batch returns `{success := true, action := created,
message := "Applied N files"}` with `N` the array length. -/
theorem C3_theorem :
    (∀ (σ : Type) (step : ApplyPayload → σ → ApplyResult × σ)
        (prior : List ApplyPayload) (b : ApplyPayload) (cs : List ApplyPayload) (s : σ),
      allSucceed step prior s →
      (step b (stateAfter step prior s)).1.success = false →
      applyBatch step (prior ++ b :: cs) s
        = ((step b (stateAfter step prior s)).1, (step b (stateAfter step prior s)).2)) ∧
    (∀ (σ : Type) (step : ApplyPayload → σ → ApplyResult × σ)
        (ps : List ApplyPayload) (s : σ),
      allSucceed step ps s →
      applyBatch step ps s
        = (⟨true, .created, some (appliedMsg ps.length), none⟩, stateAfter step ps s)) := by
  constructor
  · intro σ step prior b cs s hall hfail
    rw [applyBatch, applyBatchGo_append_fail step prior b cs s hall hfail]
  · intro σ step ps s hall
    rw [applyBatch, applyBatchGo_all step ps s hall]

/-- Demonstration unit processor for the batch loop: succeeds on language
`ok` (logging 1), fails on anything else (logging 2). -/
def demoStep : ApplyPayload → List Nat → ApplyResult × List Nat :=
  fun p log =>
    if p.language = ("ok".toList) then (⟨true, .created, none, none⟩, log ++ [1])
    else (⟨false, .error, some ("boom".toList), none⟩, log ++ [2])

/-- Demonstration payloads for the batch loop. -/
def pOk : ApplyPayload := ⟨("a".toList), ("ok".toList), .create, none, none⟩

/-- Demonstration failing payload for the batch loop. -/
def pBad : ApplyPayload := ⟨("b".toList), ("bad".toList), .create, none, none⟩

/-- C3 witness: on `[ok, bad, ok]` the batch halts at the failing unit and
returns its result (the third unit's effect never appears in the log); on
`[ok, ok]` it reports `Applied 2 files`. -/
theorem C3_witness :
    applyBatch demoStep [pOk, pBad, pOk] []
      = (⟨false, .error, some ("boom".toList), none⟩, [1, 2]) ∧
    applyBatch demoStep [pOk, pOk] []
      = (⟨true, .created, some (appliedMsg 2), none⟩, [1, 1]) := by
  constructor
  · exact (C3_theorem.1 (List Nat) demoStep [pOk] pBad [pOk] [] (by decide) (by decide)).trans
      (by decide)
  · exact (C3_theorem.2 (List Nat) demoStep [pOk, pOk] [] (by decide)).trans (by decide)

/-- C4: an `acceptChange` call whose id is unknown (or already resolved)
returns `false` and leaves the whole state — pending-change map and all
documents — unchanged, and `rejectChange` on such an id is a no-op; both are
total functions, so neither throws.  Consequently a second `acceptChange`
after a successful one returns `false` with no second mutation, and a second
`rejectChange` has no side effects. -/
theorem C4_theorem (st : DiffState) (changeId : Nat) (ok ok2 : Bool) :
    (mapGet st.pending changeId = none →
      acceptChange ok st changeId = (false, st) ∧ rejectChange st changeId = st) ∧
    (∀ st' : DiffState, acceptChange ok st changeId = (true, st') →
      acceptChange ok2 st' changeId = (false, st') ∧ rejectChange st' changeId = st') := by
  constructor
  · intro h
    exact ⟨by simp [acceptChange, h], by simp [rejectChange, h]⟩
  · intro st' h2
    rcases hm : mapGet st.pending changeId with _ | ch
    · simp [acceptChange, hm] at h2
    · rcases ok with _ | _
      · simp [acceptChange, hm] at h2
      · have h2' : (true, (⟨mapDel st.pending changeId, docApply st.docs ch⟩ : DiffState))
            = (true, st') := by
          simpa [acceptChange, hm] using h2
        have hst : st' = ⟨mapDel st.pending changeId, docApply st.docs ch⟩ := by
          injection h2' with _ h
          exact h.symm
        have hnone : mapGet st'.pending changeId = none := by
          rw [hst]
          exact mapGet_mapDel st.pending changeId
        exact ⟨by simp [acceptChange, hnone], by simp [rejectChange, hnone]⟩

/-- C4 witness: on an empty store, accepting and rejecting an unknown id
return `false` and leave the state untouched. -/
theorem C4_witness :
    acceptChange true ⟨[], []⟩ 5 = (false, ⟨[], []⟩) ∧ rejectChange ⟨[], []⟩ 5 = ⟨[], []⟩ :=
  (C4_theorem ⟨[], []⟩ 5 true true).1 rfl

/-- C5 counterexample: for original text `ab`, position `(0,5)` (character
beyond the line end) and single-line code `X`, the proposed content is `abX`
but deleting the inserted substring at the same position (character offset 5)
yields `abX` again, not `ab` — so the round trip fails without bounds
hypotheses on the position. -/
theorem C5_counterexample :
    ¬ ((generateProposedContent ("ab".toList) ⟨0, 5⟩ ("X".toList) none).take
          (offsetAt (splitLines ("ab".toList)) 0 5) ++
        (generateProposedContent ("ab".toList) ⟨0, 5⟩ ("X".toList) none).drop
          (offsetAt (splitLines ("ab".toList)) 0 5 + ("X".toList).length)
        = ("ab".toList)) := by
  decide

/-- C5 (amended): for an insertion (no range) at an in-bounds position —
line within the document and character at most the line length — the
proposed full content is the original with the new code spliced in at the
corresponding character offset, and deleting the inserted substring at that
same offset exactly reconstructs the original text (stated for single-line
insertions as in the claim). -/
theorem C5_theorem (originalText newCode : List Char) (line char : Nat)
    (hline : line < (splitLines originalText).length)
    (hchar : char ≤ ((splitLines originalText).getD line []).length)
    (hsingle : newCode.all (· ≠ '\n') = true) :
    generateProposedContent originalText ⟨line, char⟩ newCode none
      = originalText.take (offsetAt (splitLines originalText) line char) ++ newCode ++
        originalText.drop (offsetAt (splitLines originalText) line char) ∧
    (generateProposedContent originalText ⟨line, char⟩ newCode none).take
        (offsetAt (splitLines originalText) line char) ++
      (generateProposedContent originalText ⟨line, char⟩ newCode none).drop
        (offsetAt (splitLines originalText) line char + newCode.length)
      = originalText := by
  obtain ⟨A, B, h1, h2, h3⟩ :=
    joinLines_set_splice newCode line (splitLines originalText) char hline hchar
  have horig : originalText = A ++ B := by
    rw [← joinLines_splitLines originalText, h1]
  have hgen : generateProposedContent originalText ⟨line, char⟩ newCode none
      = A ++ newCode ++ B := by
    simp only [generateProposedContent]
    rw [if_neg (by omega : ¬ line ≥ (splitLines originalText).length)]
    exact h3
  have htake : originalText.take (offsetAt (splitLines originalText) line char) = A := by
    rw [← h2, horig, List.take_left]
  have hdrop : originalText.drop (offsetAt (splitLines originalText) line char) = B := by
    rw [← h2, horig, List.drop_left]
  constructor
  · rw [hgen, htake, hdrop]
  · rw [hgen, ← h2]
    rw [show A.length + newCode.length = (A ++ newCode).length from
      (List.length_append _ _).symm]
    rw [List.drop_left]
    rw [List.take_append_of_le_length (by simp : A.length ≤ (A ++ newCode).length)]
    rw [List.take_append_of_le_length (Nat.le_refl _), List.take_length]
    exact horig.symm

/-- C5 witness: inserting `Z` at position `(1,1)` of `a\nb` (offset 3) gives
`a\nbZ`, and removing it at offset 3 restores `a\nb`. -/
theorem C5_witness :
    generateProposedContent ("a\nb".toList) ⟨1, 1⟩ ("Z".toList) none
      = ("a\nb".toList).take (offsetAt (splitLines ("a\nb".toList)) 1 1) ++ ("Z".toList) ++
        ("a\nb".toList).drop (offsetAt (splitLines ("a\nb".toList)) 1 1) ∧
    (generateProposedContent ("a\nb".toList) ⟨1, 1⟩ ("Z".toList) none).take
        (offsetAt (splitLines ("a\nb".toList)) 1 1) ++
      (generateProposedContent ("a\nb".toList) ⟨1, 1⟩ ("Z".toList) none).drop
        (offsetAt (splitLines ("a\nb".toList)) 1 1 + ("Z".toList).length)
      = ("a\nb".toList) :=
  C5_theorem ("a\nb".toList) ("Z".toList) 1 1 (by decide) (by decide) (by decide)

theorem headerTok_none_of_head_ne (o c : Char) (os closeM cs : List Char) (h : o ≠ c) :
    headerTok (o :: os) closeM (c :: cs) = none := by
  simp [headerTok, stripPre, h]

theorem docstringHeaderTok_head (l : List Char) (h : (docstringHeaderTok l).isSome = true) :
    ∃ cs, l = dq :: cs := by
  cases l with
  | nil => simp [docstringHeaderTok, headerTok, stripPre] at h
  | cons c cs =>
    by_cases hc : dq = c
    · exact ⟨cs, by rw [← hc]⟩
    · have : docstringHeaderTok (c :: cs) = none :=
        headerTok_none_of_head_ne dq c [dq, dq] [dq, dq, dq] cs hc
      rw [this] at h
      simp at h

theorem mdHeaderTok_dq (cs : List Char) : mdHeaderTok (dq :: cs) = none := by
  have hne : (dq == '#') = false := by decide
  simp [mdHeaderTok, List.takeWhile, hne]

theorem firstHeaderTok_isSome_eq (l : List Char) :
    (firstHeaderTok l).isSome =
      ((slashHeaderTok l).isSome || (hashHeaderTok l).isSome || (blockHeaderTok l).isSome ||
       (htmlHeaderTok l).isSome || (docstringHeaderTok l).isSome) := by
  unfold firstHeaderTok
  cases slashHeaderTok l <;> cases hashHeaderTok l <;> cases blockHeaderTok l <;>
    cases htmlHeaderTok l <;> cases docstringHeaderTok l <;> simp

/-- Example code block whose first line is a `"""` docstring path header. -/
def docstringLine : List Char := [dq, dq, dq] ++ (" main.py ".toList) ++ [dq, dq, dq]

/-- Example code block whose first line is a `"""` docstring path header. -/
def docstringCode : List Char := docstringLine ++ '\n' :: ("print(1)".toList)

/-- C7 counterexample: a block opening with the docstring header
`""" main.py """` matches the classifier's create-stage header patterns
(`detectFileCreation` returns intent `create`, confidence 0.95, target
`main.py`) but is **not** stripped by `cleanCodeForFile`, whose pattern list
lacks the docstring style — so the two predicates are not equivalent. -/
theorem C7_counterexample :
    cleanCodeForFile docstringCode = docstringCode ∧
    fileHeaderStripMatch docstringLine = false ∧
    fileCreationHeaderMatch docstringLine = true ∧
    detectFileCreation docstringCode ("py".toList)
      = ⟨.create, mkRat 95 100, some ("main.py".toList), none⟩ ∧
    mkRat 95 100 = (0.95 : ℚ) := by
  refine ⟨by decide, by decide, by decide, by decide, ?_⟩
  norm_num [Rat.mkRat_eq_div]

/-- C7 (amended): `cleanCodeForFile`'s header predicate agrees with the
classifier's create-stage header predicate on every line **except** the
docstring style: it equals the classifier predicate with the `""" """`
pattern removed. -/
theorem C7_theorem (l : List Char) :
    fileHeaderStripMatch l
      = (fileCreationHeaderMatch l && !(docstringHeaderTok l).isSome) := by
  by_cases hE : (docstringHeaderTok l).isSome = true
  · obtain ⟨cs, rfl⟩ := docstringHeaderTok_head l hE
    have h1 : slashHeaderTok (dq :: cs) = none :=
      headerTok_none_of_head_ne '/' dq ['/'] [] cs (by decide)
    have h2 : hashHeaderTok (dq :: cs) = none :=
      headerTok_none_of_head_ne '#' dq [] [] cs (by decide)
    have h3 : blockHeaderTok (dq :: cs) = none :=
      headerTok_none_of_head_ne '/' dq ['*'] ("*/".toList) cs (by decide)
    have h4 : htmlHeaderTok (dq :: cs) = none :=
      headerTok_none_of_head_ne '<' dq ("!--".toList) ("-->".toList) cs (by decide)
    have h5 : mdHeaderTok (dq :: cs) = none := mdHeaderTok_dq cs
    simp [fileHeaderStripMatch, fileCreationHeaderMatch, firstHeaderTok_isSome_eq,
      h1, h2, h3, h4, h5, hE]
  · have hE' : (docstringHeaderTok l).isSome = false := by
      cases h : docstringHeaderTok l with
      | none => rfl
      | some t => rw [h] at hE; simp at hE
    simp [fileHeaderStripMatch, fileCreationHeaderMatch, firstHeaderTok_isSome_eq, hE']

/-- Demonstration pending change: insert `X` at the origin of document 0. -/
def chDemo : PendingChange := ⟨1, 0, ⟨0, 0⟩, none, ("X".toList), [], 0⟩

/-- C8 counterexample: under the interleaving in which both calls pass the
lookup before either commits (schedule A,B,A,A,B,B), **both** racing
`acceptChange(1)` calls return `true` and the insertion is applied twice
(`hello` becomes `XXhello`) — refuting "exactly one returns true and
produces exactly one edit".  The lookup and the deletion are separated by the
awaited `editor.edit`, so the second call can still observe the live entry. -/
theorem C8_counterexample :
    raceRun 1 true true [true, false, true, true, false, false]
        ⟨[(1, chDemo)], [(0, ("hello".toList))], .ready, .ready⟩
      = ⟨[], [(0, ("XXhello".toList))], .finished true, .finished true⟩ := by
  decide

/-- C8 (amended): when the two calls do not interleave — one call's three
segments (lookup, edit, commit) all run before the other's first — exactly
one call returns `true` and applies the edit once, and the other observes the
entry as absent and returns `false` with no edit. -/
theorem C8_theorem (changeId : Nat) (pending : List (Nat × PendingChange))
    (docs : List (Nat × List Char)) (ch : PendingChange)
    (h : mapGet pending changeId = some ch) :
    raceRun changeId true true [true, true, true, false, false, false]
        ⟨pending, docs, .ready, .ready⟩
      = ⟨mapDel pending changeId, docApply docs ch, .finished true, .finished false⟩ := by
  simp [raceRun, raceStep, accStep, h, mapGet_mapDel]

/-- Demonstration pending change for the serial-schedule witness. -/
def chDemo2 : PendingChange := ⟨2, 0, ⟨0, 1⟩, none, ("Y".toList), [], 0⟩

/-- C8 witness: a concrete serial run in which task A accepts (one edit) and
task B finds the entry gone and returns `false`. -/
theorem C8_witness :
    raceRun 2 true true [true, true, true, false, false, false]
        ⟨[(2, chDemo2)], [(0, ("hi".toList))], .ready, .ready⟩
      = ⟨mapDel [(2, chDemo2)] 2, docApply [(0, ("hi".toList))] chDemo2,
          .finished true, .finished false⟩ :=
  C8_theorem 2 [(2, chDemo2)] [(0, ("hi".toList))] chDemo2 rfl

theorem detectCommand_elim (code : List Char) (P : DetectedIntent → Prop)
    (h95 : P ⟨.command, mkRat 95 100, none, none⟩)
    (h90 : P ⟨.command, mkRat 90 100, none, none⟩)
    (h85 : P ⟨.command, mkRat 85 100, none, none⟩)
    (h40 : P ⟨.command, mkRat 40 100, none, none⟩)
    (h0 : P ⟨.command, 0, none, none⟩) :
    P (detectCommand code) := by
  simp only [detectCommand]
  generalize splitLines (trimBoth code) = ls
  generalize trimBoth (ls.getD 0 []) = fl
  by_cases h1 : shellPromptTest fl = true
  · rw [if_pos h1]; exact h95
  rw [if_neg h1]
  by_cases h2 : cmdToolVerb (["npm", "yarn", "pnpm", "npx"].map String.toList)
      (["install", "run", "start", "test", "build", "dev", "init", "create"].map String.toList)
      (lower fl) = true
  · rw [if_pos h2]; exact h90
  rw [if_neg h2]
  by_cases h3 : cmdToolVerb (["pip", "pip3", "python", "python3"].map String.toList)
      (["install", "run", "-m"].map String.toList) (lower fl) = true
  · rw [if_pos h3]; exact h90
  rw [if_neg h3]
  split_ifs <;> assumption

theorem detectCommand_shape (code : List Char) :
    ∃ c, detectCommand code = ⟨.command, c, none, none⟩ ∧
      (c = mkRat 95 100 ∨ c = mkRat 90 100 ∨ c = mkRat 85 100 ∨
       c = mkRat 40 100 ∨ c = 0) :=
  detectCommand_elim code
    (fun r => ∃ c, r = ⟨.command, c, none, none⟩ ∧
      (c = mkRat 95 100 ∨ c = mkRat 90 100 ∨ c = mkRat 85 100 ∨
       c = mkRat 40 100 ∨ c = 0))
    ⟨_, rfl, by simp⟩ ⟨_, rfl, by simp⟩ ⟨_, rfl, by simp⟩ ⟨_, rfl, by simp⟩
    ⟨_, rfl, by simp⟩

theorem detectFileCreation_shape (code language : List Char) :
    ∃ c t, detectFileCreation code language = ⟨.create, c, t, none⟩ ∧
      (c = mkRat 95 100 ∨ c = mkRat 90 100 ∨ c = mkRat 70 100 ∨
       c = mkRat 85 100 ∨ c = 0) := by
  simp only [detectFileCreation]
  split
  · exact ⟨_, _, rfl, by simp⟩
  · split
    · exact ⟨_, _, rfl, by simp⟩
    · split
      · exact ⟨_, _, rfl, by simp⟩
      · split_ifs <;> exact ⟨_, _, rfl, by simp⟩

theorem detectEdit_shape (code language : List Char) (activeFile : Option (List Char)) :
    ∃ c a, detectEdit code language activeFile = ⟨.edit, c, none, a⟩ ∧
      (c = mkRat 85 100 ∨ c = mkRat 70 100 ∨ c = mkRat 60 100 ∨
       c = mkRat 50 100 ∨ c = 0) := by
  simp only [detectEdit]
  generalize trimBoth code = tr
  split_ifs <;> exact ⟨_, _, rfl, by simp⟩

/-- C9: every result of `detect` has confidence within `[0,1]`, and every
result with intent `command` has confidence at least 0.85 — the weak
single-line command signal (0.4) can never be returned, because the command
stage short-circuits only above 0.8 and the fallback tiers return only
`edit` (0.4) or `create` (0.3). -/
theorem C9_theorem (code language : List Char) (activeFile : Option (List Char)) :
    0 ≤ (detect code language activeFile).confidence ∧
    (detect code language activeFile).confidence ≤ 1 ∧
    ((detect code language activeFile).intent = .command →
      (0.85 : ℚ) ≤ (detect code language activeFile).confidence) := by
  obtain ⟨cc, hc, hcd⟩ := detectCommand_shape code
  obtain ⟨fc, ft, hf, hfd⟩ := detectFileCreation_shape code language
  obtain ⟨ec, ea, he, hed⟩ := detectEdit_shape code language activeFile
  simp only [detect]
  split_ifs with h1 h2 h3 h4
  · rw [hc] at h1 ⊢
    simp only at h1 ⊢
    refine ⟨?_, ?_, fun _ => ?_⟩ <;>
      rcases hcd with h | h | h | h | h <;> subst h <;>
      norm_num [Rat.mkRat_eq_div] at h1 ⊢
  · rw [hf]
    simp only
    refine ⟨?_, ?_, fun hcmd => absurd hcmd (by decide)⟩ <;>
      rcases hfd with h | h | h | h | h <;> subst h <;>
      norm_num [Rat.mkRat_eq_div]
  · rw [he]
    simp only
    refine ⟨?_, ?_, fun hcmd => absurd hcmd (by decide)⟩ <;>
      rcases hed with h | h | h | h | h <;> subst h <;>
      norm_num [Rat.mkRat_eq_div]
  · exact ⟨by norm_num [Rat.mkRat_eq_div], by norm_num [Rat.mkRat_eq_div],
      fun hcmd => absurd hcmd (by decide)⟩
  · exact ⟨by norm_num [Rat.mkRat_eq_div], by norm_num [Rat.mkRat_eq_div],
      fun hcmd => absurd hcmd (by decide)⟩

/-- C9 witness: a concrete command block (shell prompt) whose detected
confidence is at least 0.85. -/
theorem C9_witness :
    (0.85 : ℚ) ≤ (detect ("$ ls -la".toList) ("bash".toList) none).confidence :=
  (C9_theorem ("$ ls -la".toList) ("bash".toList) none).2.2 (by decide)

end MistralApply
